import Mathlib

set_option maxRecDepth 4000

/-!
Shallow embedding of the core of the `radiotap` Rust crate (parser/serializer for
the Radiotap wireless capture header format).

The repository provides `src/lib.rs` (header model, field iterator, aggregate
parse/unparse) and `src/builder/mod.rs` (the builder).  The `field` module
(kind catalog with bit/size/align values, the header prefix codec and the
per-field codecs) is declared but its source is not part of the repository
snapshot; those parts are modelled from the specification, and each such
definition is marked `Modelled from the spec:` in its doc comment.

Machine integers are modelled as `Nat` with explicit `% 2 ^ 64` where u64/usize
wrap-around matters.  Byte buffers are `List Nat`.  A Rust subslice expression
`&data[a..b]` panics when `b` exceeds the buffer length; this is modelled
explicitly by a `panicked` outcome, distinct from returned errors.
-/

/-- Error enum from src/lib.rs lines 95-120.  `ParseError` stands for the
wrapped io error of the internal cursor. -/
inductive Error where
  | ParseError
  | IncompleteError
  | InvalidLength
  | InvalidFormat
  | UnsupportedVersion
  | UnsupportedField
  deriving DecidableEq

/-- Rust `Result` specialised to `Error`, kept as a first-class inductive so
that every computation stays decidably comparable. -/
inductive Res (α : Type) where
  | err (e : Error)
  | ok (a : α)
  deriving DecidableEq

/-- Modelled from the spec: the fixed-size vendor-namespace descriptor
(`VendorDescriptor`), a record carrying an OUI, a sub-namespace byte and a
`skip_length` counting the opaque payload bytes that follow the descriptor. -/
structure VendorNamespace where
  oui : List Nat
  sub_namespace : Nat
  skip_length : Nat
  deriving DecidableEq

abbrev VNS := VendorNamespace

/-- Modelled from the spec: decoding the fixed 6-byte descriptor of the vendor
namespace from its byte window (3 OUI bytes, sub-namespace byte, little-endian
u16 `skip_length`); a window shorter than the descriptor fails like a short
cursor read. -/
def VendorNamespace.from_bytes (b : List Nat) : Res VendorNamespace :=
  if 6 ≤ b.length then
    .ok ⟨[b.getD 0 0, b.getD 1 0, b.getD 2 0], b.getD 3 0,
         b.getD 4 0 + 256 * b.getD 5 0⟩
  else .err .ParseError

/-- The `Kind` enum of the field module: one tag per supported field type plus
the vendor-namespace sentinel, which optionally carries a decoded descriptor
(absent before iteration, present once decoded). -/
inductive Kind where
  | TSFT
  | Flags
  | Rate
  | Channel
  | FHSS
  | AntennaSignal
  | AntennaNoise
  | LockQuality
  | TxAttenuation
  | TxAttenuationDb
  | TxPower
  | Antenna
  | AntennaSignalDb
  | AntennaNoiseDb
  | RxFlags
  | TxFlags
  | RTSRetries
  | DataRetries
  | XChannel
  | MCS
  | AMPDUStatus
  | VHT
  | Timestamp
  | VendorNamespace (vns : Option VNS)
  deriving DecidableEq

/-- Modelled from the spec: each Kind's presence-bitmap bit index (the standard
Radiotap bit assignment; the named kinds occupy bits 0-22 in declaration order
and the vendor namespace sentinel occupies bit 30). -/
def Kind.bit : Kind → Nat
  | .TSFT => 0
  | .Flags => 1
  | .Rate => 2
  | .Channel => 3
  | .FHSS => 4
  | .AntennaSignal => 5
  | .AntennaNoise => 6
  | .LockQuality => 7
  | .TxAttenuation => 8
  | .TxAttenuationDb => 9
  | .TxPower => 10
  | .Antenna => 11
  | .AntennaSignalDb => 12
  | .AntennaNoiseDb => 13
  | .RxFlags => 14
  | .TxFlags => 15
  | .RTSRetries => 16
  | .DataRetries => 17
  | .XChannel => 18
  | .MCS => 19
  | .AMPDUStatus => 20
  | .VHT => 21
  | .Timestamp => 22
  | .VendorNamespace _ => 30

/-- Modelled from the spec: each Kind's fixed encoded byte size (for the vendor
namespace, the size of its fixed descriptor only).  The concrete values for
`tsft` (8), `rate` (1) and `channel` (4) are stated in the spec; the rest
follow the standard Radiotap field layout that the builder doc-tests in
src/builder/mod.rs corroborate (e.g. Timestamp size 12). -/
def Kind.size : Kind → Nat
  | .TSFT => 8
  | .Flags => 1
  | .Rate => 1
  | .Channel => 4
  | .FHSS => 2
  | .AntennaSignal => 1
  | .AntennaNoise => 1
  | .LockQuality => 2
  | .TxAttenuation => 2
  | .TxAttenuationDb => 2
  | .TxPower => 1
  | .Antenna => 1
  | .AntennaSignalDb => 1
  | .AntennaNoiseDb => 1
  | .RxFlags => 2
  | .TxFlags => 2
  | .RTSRetries => 1
  | .DataRetries => 1
  | .XChannel => 8
  | .MCS => 3
  | .AMPDUStatus => 8
  | .VHT => 12
  | .Timestamp => 12
  | .VendorNamespace _ => 6

/-- Modelled from the spec: each Kind's power-of-two alignment (the byte
boundary its start offset must satisfy).  `tsft` aligns to 8, `rate` to 1 and
`channel` to 2 per the spec's concrete scenario; the rest follow the standard
layout corroborated by the builder tests. -/
def Kind.align : Kind → Nat
  | .TSFT => 8
  | .Flags => 1
  | .Rate => 1
  | .Channel => 2
  | .FHSS => 2
  | .AntennaSignal => 1
  | .AntennaNoise => 1
  | .LockQuality => 2
  | .TxAttenuation => 2
  | .TxAttenuationDb => 2
  | .TxPower => 1
  | .Antenna => 1
  | .AntennaSignalDb => 1
  | .AntennaNoiseDb => 1
  | .RxFlags => 2
  | .TxFlags => 2
  | .RTSRetries => 1
  | .DataRetries => 1
  | .XChannel => 4
  | .MCS => 1
  | .AMPDUStatus => 4
  | .VHT => 2
  | .Timestamp => 8
  | .VendorNamespace _ => 2

/-- The 23 kinds that own a typed slot in the `Radiotap` struct, in bit order.
The vendor-namespace sentinel is deliberately absent: it has no typed slot. -/
def namedKinds : List Kind :=
  [.TSFT, .Flags, .Rate, .Channel, .FHSS, .AntennaSignal, .AntennaNoise,
   .LockQuality, .TxAttenuation, .TxAttenuationDb, .TxPower, .Antenna,
   .AntennaSignalDb, .AntennaNoiseDb, .RxFlags, .TxFlags, .RTSRetries,
   .DataRetries, .XChannel, .MCS, .AMPDUStatus, .VHT, .Timestamp]

/-- The alignment expression `(p + align - 1) & !(align - 1)` from
src/lib.rs line 134 (`Align for Cursor`) and the identical formula in
src/builder/mod.rs line 67 and src/lib.rs line 334.  The addition wraps at
64 bits and `!(align - 1)` is the 64-bit complement `2 ^ 64 - align`. -/
def alignUp (pos align : Nat) : Nat :=
  ((pos + align - 1) % 2 ^ 64) &&& (2 ^ 64 - align)

/-- The subslice `data[start..stop]` (caller is responsible for the panic check,
modelled at each use site). -/
def byteSlice (data : List Nat) (start stop : Nat) : List Nat :=
  (data.drop start).take (stop - start)

/-- Outcome of one call to `RadiotapIteratorIntoIter::next` once a kind has
been popped: a Rust panic (out-of-range subslice), a yielded error, or a yielded
`(Kind, data)` item. -/
inductive StepOut where
  | panicked
  | fail (e : Error)
  | item (kind : Kind) (data : List Nat)
  deriving DecidableEq

/-- Iterator state from src/lib.rs lines 161-164: the remaining present list
and the cursor position.  The source stores the list reversed and pops from
the end; we store it in ascending order and pop from the front, the same
FIFO-by-ascending-bit traversal. -/
structure IterState where
  present : List Kind
  pos : Nat
  deriving DecidableEq

/-- Body of `RadiotapIteratorIntoIter::next` (src/lib.rs lines 193-225) for a
popped `kind`: align the cursor, bounds-check the field window, splice the
vendor namespace (decoding its descriptor and widening the window by
`skip_length` with no second bounds check before slicing), and yield.
Returns the outcome together with the final cursor position. -/
def iterNextCore (kind : Kind) (pos : Nat) (data : List Nat) : StepOut × Nat :=
  let pos1 := alignUp pos kind.align
  let start := pos1
  let stop := start + kind.size
  if stop > data.length then
    (.fail .IncompleteError, pos1)
  else if kind = Kind.VendorNamespace none then
    match VendorNamespace.from_bytes (byteSlice data start stop) with
    | .ok vns =>
      let start' := start + kind.size
      let stop' := stop + vns.skip_length
      if stop' > data.length then (.panicked, pos1)
      else (.item (Kind.VendorNamespace (some vns)) (byteSlice data start' stop'), stop')
    | .err e => (.fail e, pos1)
  else
    (.item kind (byteSlice data start stop), stop)

/-- One call to `RadiotapIteratorIntoIter::next`: `none` when the present list
is exhausted, otherwise the popped kind's outcome plus the successor state. -/
def iterNext (s : IterState) (data : List Nat) : Option StepOut × IterState :=
  match s.present with
  | [] => (none, s)
  | kind :: rest =>
    (some (iterNextCore kind s.pos data).1, ⟨rest, (iterNextCore kind s.pos data).2⟩)

/-- The Header struct of the field module: protocol version, declared total
length, ordered present-kind list and prefix size (offset of the first field).
Field order follows the `Default` impl in src/lib.rs lines 228-237. -/
structure Header where
  version : Nat
  length : Nat
  present : List Kind
  size : Nat
  deriving DecidableEq

/-- `Default for Header` from src/lib.rs lines 228-237. -/
def Header.init : Header :=
  { version := 0, length := 8, present := [], size := 8 }

/-- The `Radiotap` aggregate from src/lib.rs lines 241-267: the header plus one
optional typed slot per named kind.  Field values are modelled by their encoded
bytes (the per-field bit layouts are external pluggable codecs per the spec), so
a slot holds the `Kind.size`-byte encoding of the stored value. -/
structure Radiotap where
  header : Header
  tsft : Option (List Nat)
  flags : Option (List Nat)
  rate : Option (List Nat)
  channel : Option (List Nat)
  fhss : Option (List Nat)
  antenna_signal : Option (List Nat)
  antenna_noise : Option (List Nat)
  lock_quality : Option (List Nat)
  tx_attenuation : Option (List Nat)
  tx_attenuation_db : Option (List Nat)
  tx_power : Option (List Nat)
  antenna : Option (List Nat)
  antenna_signal_db : Option (List Nat)
  antenna_noise_db : Option (List Nat)
  rx_flags : Option (List Nat)
  tx_flags : Option (List Nat)
  rts_retries : Option (List Nat)
  data_retries : Option (List Nat)
  xchannel : Option (List Nat)
  mcs : Option (List Nat)
  ampdu_status : Option (List Nat)
  vht : Option (List Nat)
  timestamp : Option (List Nat)
  deriving DecidableEq

/-- `Default for Radiotap` (derived in the source): default header, no slots. -/
def Radiotap.init : Radiotap :=
  ⟨Header.init, none, none, none, none, none, none, none, none, none, none,
   none, none, none, none, none, none, none, none, none, none, none, none, none⟩

/-- Read dispatch from a kind to its typed slot, the match that appears (as
field accesses) in `Radiotap::unparse` (src/lib.rs lines 340-365).  The vendor
namespace sentinel has no slot. -/
def getSlot (r : Radiotap) : Kind → Option (List Nat)
  | .TSFT => r.tsft
  | .Flags => r.flags
  | .Rate => r.rate
  | .Channel => r.channel
  | .FHSS => r.fhss
  | .AntennaSignal => r.antenna_signal
  | .AntennaNoise => r.antenna_noise
  | .LockQuality => r.lock_quality
  | .TxAttenuation => r.tx_attenuation
  | .TxAttenuationDb => r.tx_attenuation_db
  | .TxPower => r.tx_power
  | .Antenna => r.antenna
  | .AntennaSignalDb => r.antenna_signal_db
  | .AntennaNoiseDb => r.antenna_noise_db
  | .RxFlags => r.rx_flags
  | .TxFlags => r.tx_flags
  | .RTSRetries => r.rts_retries
  | .DataRetries => r.data_retries
  | .XChannel => r.xchannel
  | .MCS => r.mcs
  | .AMPDUStatus => r.ampdu_status
  | .VHT => r.vht
  | .Timestamp => r.timestamp
  | .VendorNamespace _ => none

/-- Write dispatch from a kind to its typed slot, the match that appears in
`Radiotap::parse` (src/lib.rs lines 294-319); the catch-all arm (vendor
namespace) stores nothing. -/
def setSlot (r : Radiotap) (kind : Kind) (v : List Nat) : Radiotap :=
  match kind with
  | .TSFT => { r with tsft := some v }
  | .Flags => { r with flags := some v }
  | .Rate => { r with rate := some v }
  | .Channel => { r with channel := some v }
  | .FHSS => { r with fhss := some v }
  | .AntennaSignal => { r with antenna_signal := some v }
  | .AntennaNoise => { r with antenna_noise := some v }
  | .LockQuality => { r with lock_quality := some v }
  | .TxAttenuation => { r with tx_attenuation := some v }
  | .TxAttenuationDb => { r with tx_attenuation_db := some v }
  | .TxPower => { r with tx_power := some v }
  | .Antenna => { r with antenna := some v }
  | .AntennaSignalDb => { r with antenna_signal_db := some v }
  | .AntennaNoiseDb => { r with antenna_noise_db := some v }
  | .RxFlags => { r with rx_flags := some v }
  | .TxFlags => { r with tx_flags := some v }
  | .RTSRetries => { r with rts_retries := some v }
  | .DataRetries => { r with data_retries := some v }
  | .XChannel => { r with xchannel := some v }
  | .MCS => { r with mcs := some v }
  | .AMPDUStatus => { r with ampdu_status := some v }
  | .VHT => { r with vht := some v }
  | .Timestamp => { r with timestamp := some v }
  | .VendorNamespace _ => r

/-- Modelled from the spec: the external per-field codec contract.  A field
value is its fixed-size byte encoding, so decoding reads exactly `kind.size`
bytes from the yielded window (a short window fails like a short cursor
read). -/
def fieldFromBytes (kind : Kind) (data : List Nat) : Res (List Nat) :=
  if kind.size ≤ data.length then .ok (data.take kind.size)
  else .err .ParseError

/-- One arm of the dispatch loop in `Radiotap::parse` (src/lib.rs lines
291-320): a kind with a typed slot decodes the yielded window into that slot
(errors propagate), any other kind (the vendor sentinel) is discarded without
error. -/
def parseStep (r : Radiotap) (kind : Kind) (data : List Nat) : Res Radiotap :=
  match kind with
  | .VendorNamespace _ => .ok r
  | k =>
    match fieldFromBytes k data with
    | .ok v => .ok (setSlot r k v)
    | .err e => .err e

/-- Result of running a parse to completion: a Rust panic, an error, or a
value. -/
inductive PRes (α : Type) where
  | panicked
  | err (e : Error)
  | ok (a : α)
  deriving DecidableEq

/-- The `for result in &iterator` loop of `Radiotap::parse`: repeatedly call
the iterator step and dispatch each yielded item. -/
def runFields (r : Radiotap) (present : List Kind) (pos : Nat)
    (data : List Nat) : PRes Radiotap :=
  match present with
  | [] => .ok r
  | kind :: rest =>
    match iterNextCore kind pos data with
    | (.panicked, _) => .panicked
    | (.fail e, _) => .err e
    | (.item k d, pos') =>
      match parseStep r k d with
      | .err e => .err e
      | .ok r' => runFields r' rest pos' data

/-- Little-endian u16 bytes. -/
def u16le (n : Nat) : List Nat := [n % 256, n / 256 % 256]

/-- Little-endian u32 bytes. -/
def u32le (n : Nat) : List Nat :=
  [n % 256, n / 256 % 256, n / 2 ^ 16 % 256, n / 2 ^ 24 % 256]

/-- Little-endian u16 read at an offset. -/
def readU16 (b : List Nat) (off : Nat) : Nat :=
  b.getD off 0 + 256 * b.getD (off + 1) 0

/-- Little-endian u32 read at an offset. -/
def readU32 (b : List Nat) (off : Nat) : Nat :=
  b.getD off 0 + 256 * b.getD (off + 1) 0 + 2 ^ 16 * b.getD (off + 2) 0 +
    2 ^ 24 * b.getD (off + 3) 0

/-- Modelled from the spec: the presence-bitmap word whose set bits are exactly
the `bit` indices of the present kinds. -/
def presentWord (present : List Kind) : Nat :=
  present.foldl (fun w k => w ||| 2 ^ k.bit) 0

/-- Modelled from the spec: the Header encode primitive.  Writes the version
byte, a pad byte, the little-endian u16 declared length, and one presence
bitmap word (the core's present sets keep to the first word's bit range; its
continuation bit 31 is never a field bit). -/
def headerUnparse (h : Header) : List Nat :=
  [h.version, 0] ++ u16le h.length ++ u32le (presentWord h.present)

/-- The tag for each presence bit a word can carry: the named kinds on bits
0-22 and the vendor-namespace sentinel (with no descriptor yet) on bit 30. -/
def kindTags : List Kind := namedKinds ++ [.VendorNamespace none]

/-- Modelled from the spec: the kind a presence bit denotes, if any.  Bits with
no kind (reserved bits, the namespace-control bits 29 and 31) are skipped. -/
def kindOfBit (b : Nat) : Option Kind :=
  kindTags.find? (fun k => k.bit == b)

/-- Modelled from the spec: the present kinds encoded by one bitmap word, in
ascending bit order. -/
def presentOfWord (w : Nat) : List Kind :=
  (List.range 32).filterMap (fun b => if w.testBit b then kindOfBit b else none)

/-- Modelled from the spec: all present kinds of a chain of bitmap words. -/
def presentOfWords (ws : List Nat) : List Kind :=
  ws.foldr (fun w acc => presentOfWord w ++ acc) []

/-- Modelled from the spec: read the chain of presence bitmap words starting at
`off`, following the continuation bit 31; a word that would run past the buffer
fails like a short cursor read.  The fuel argument only bounds the recursion
and is instantiated with the buffer length (each word consumes four bytes). -/
def readWords (b : List Nat) : Nat → Nat → Res (List Nat)
  | 0, _ => .err .ParseError
  | fuel + 1, off =>
    if off + 4 ≤ b.length then
      let w := readU32 b off
      if w.testBit 31 then
        match readWords b fuel (off + 4) with
        | .ok ws => .ok (w :: ws)
        | .err e => .err e
      else .ok [w]
    else .err .ParseError

/-- Modelled from the spec: the trusted Header decode primitive (spec section
4.1).  Validates the version (else `UnsupportedVersion`), reads the declared
length and validates it against the supplied bytes (else `InvalidLength`),
reads the bitmap word chain, and reports the prefix size it consumed. -/
def headerDecode (input : List Nat) : Res Header :=
  if 4 ≤ input.length then
    if input.getD 0 0 = 0 then
      let len := readU16 input 2
      if len ≤ input.length then
        match readWords input input.length 4 with
        | .ok ws =>
          .ok { version := 0, length := len, present := presentOfWords ws,
                size := 4 + 4 * ws.length }
        | .err e => .err e
      else .err .InvalidLength
    else .err .UnsupportedVersion
  else .err .ParseError

/-- `Radiotap::parse` (src/lib.rs lines 283-323): decode the header, split the
governed region from the remainder at `header.length`, then drive the field
iterator from offset `header.size`, dispatching every yielded item into the
typed slots of a default-initialised value carrying the decoded header. -/
def Radiotap.parse (input : List Nat) : PRes (Radiotap × List Nat) :=
  match headerDecode input with
  | .err e => .err e
  | .ok h =>
    let data := input.take h.length
    let rest := input.drop h.length
    let r0 : Radiotap := { Radiotap.init with header := h }
    match runFields r0 h.present h.size data with
    | .panicked => .panicked
    | .err e => .err e
    | .ok r => .ok (r, rest)

/-- The field-emission loop of `Radiotap::parse`'s inverse, `Radiotap::unparse`
(src/lib.rs lines 331-366): for each present kind, write zero bytes until the
running count reaches `(size + align - 1) & !(align - 1)`, then write the
kind's stored encoding (a kind with no stored value writes nothing).  Returns
the emitted bytes and the final running count. -/
def emitFields (r : Radiotap) : List Kind → Nat → List Nat × Nat
  | [], size => ([], size)
  | kind :: rest, size =>
    let aligned := alignUp size kind.align
    let pad := List.replicate (aligned - size) 0
    let fb := (getSlot r kind).getD []
    let (tb, final) := emitFields r rest (size + pad.length + fb.length)
    (pad ++ fb ++ tb, final)

/-- `Radiotap::unparse` (src/lib.rs lines 327-369): write the encoded header,
then the padded field encodings in present order; returns the written bytes
together with the byte count the function reports. -/
def Radiotap.unparse (r : Radiotap) : List Nat × Nat :=
  let hb := headerUnparse r.header
  let (fb, size) := emitFields r r.header.present hb.length
  (hb ++ fb, size)

/-- The builder is the `inner : Radiotap` accumulator of `RadiotapBuilder`
(src/builder/mod.rs lines 45-48). -/
abbrev RadiotapBuilder := Radiotap

/-- `RadiotapBuilder::new()` (src/builder/mod.rs lines 51-53). -/
def RadiotapBuilder.new : RadiotapBuilder := Radiotap.init

/-- One generated setter from the `field!` macro (src/builder/mod.rs lines
74-86): append the kind to the presence list unless it is already there, then
overwrite the stored value.  The macro instantiates this for each of the 23
named kinds. -/
def RadiotapBuilder.set (b : RadiotapBuilder) (kind : Kind) (v : List Nat) :
    RadiotapBuilder :=
  let b1 :=
    if kind ∈ b.header.present then b
    else { b with header := { b.header with present := b.header.present ++ [kind] } }
  setSlot b1 kind v

/-- The key comparison `sort_by_key(|kind| kind.bit())` uses. -/
def bitLE (a b : Kind) : Prop := a.bit ≤ b.bit

instance : DecidableRel bitLE := fun a b => Nat.decLe a.bit b.bit

instance : IsTotal Kind bitLE := ⟨fun a b => Nat.le_total a.bit b.bit⟩

instance : IsTrans Kind bitLE := ⟨fun _ _ _ h h' => Nat.le_trans h h'⟩

/-- `RadiotapBuilder::done` (src/builder/mod.rs lines 56-71): sort the presence
list ascending by bit (a stable sort by key), then fold alignment and size over
it, starting from the accumulated header's length, to obtain the total
length. -/
def RadiotapBuilder.done (b : RadiotapBuilder) : Radiotap :=
  let sorted := List.insertionSort bitLE b.header.present
  { b with header :=
      { b.header with
          present := sorted
          length := sorted.foldl
            (fun length kind => alignUp length kind.align + kind.size)
            b.header.length } }

/-- The length fold of `RadiotapBuilder::done` as a standalone function (used
to state header well-formedness). -/
def foldLength (init : Nat) (l : List Kind) : Nat :=
  l.foldl (fun length kind => alignUp length kind.align + kind.size) init

/-- A list of builder setter calls applied in order. -/
def applyCalls (b : RadiotapBuilder) (calls : List (Kind × List Nat)) :
    RadiotapBuilder :=
  calls.foldl (fun b c => RadiotapBuilder.set b c.1 c.2) b

/-- A canonical Radiotap value: the version and prefix size are the ones the
single-word header encoder produces, the present list is a strictly
ascending-by-bit list of named kinds, the typed slots carry a value of the
kind's encoded size exactly for the present kinds, and the declared length is
the builder's fold over the present list. -/
def wellFormed (v : Radiotap) : Prop :=
  v.header.version = 0 ∧ v.header.size = 8 ∧
  v.header.present.Pairwise (fun a b => a.bit < b.bit) ∧
  v.header.present ⊆ namedKinds ∧
  (∀ k ∈ namedKinds,
    (k ∈ v.header.present → (getSlot v k).map List.length = some k.size) ∧
    (k ∉ v.header.present → getSlot v k = none)) ∧
  v.header.length = foldLength 8 v.header.present

instance (v : Radiotap) : Decidable (wellFormed v) := by
  unfold wellFormed
  infer_instance

/-! ### Arithmetic facts about the alignment mask -/

/-- Masking with `2 ^ w - 2 ^ k` keeps exactly the bits from `k` upwards:
for `x < 2 ^ w` it clears `x mod 2 ^ k`. -/
theorem land_high_mask {w k x : Nat} (hk : k ≤ w) (hx : x < 2 ^ w) :
    x &&& (2 ^ w - 2 ^ k) = x - x % 2 ^ k := by
  have hmask : 2 ^ w - 2 ^ k = (2 ^ (w - k) - 1) <<< k := by
    rw [Nat.shiftLeft_eq, Nat.sub_mul, Nat.one_mul, ← Nat.pow_add]
    congr 2
    omega
  have hsub : x - x % 2 ^ k = (x >>> k) <<< k := by
    rw [Nat.shiftLeft_eq, Nat.shiftRight_eq_div_pow]
    have h1 := Nat.div_add_mod x (2 ^ k)
    have h2 : x / 2 ^ k * 2 ^ k = 2 ^ k * (x / 2 ^ k) := Nat.mul_comm _ _
    omega
  rw [hmask, hsub]
  apply Nat.eq_of_testBit_eq
  intro i
  rw [Nat.testBit_land, Nat.testBit_shiftLeft, Nat.testBit_shiftLeft,
    Nat.testBit_shiftRight, Nat.testBit_two_pow_sub_one]
  rcases Nat.lt_or_ge i k with hik | hik
  · have : ¬ (i ≥ k) := by omega
    simp [this]
  · have hge : i ≥ k := hik
    rcases Nat.lt_or_ge i w with hiw | hiw
    · have h1 : i - k < w - k := by omega
      have h2 : k + (i - k) = i := by omega
      simp [hge, h1, h2]
    · have h1 : ¬ (i - k < w - k) := by omega
      have h2 : x.testBit i = false := by
        apply Nat.testBit_lt_two_pow
        calc x < 2 ^ w := hx
          _ ≤ 2 ^ i := Nat.pow_le_pow_right (by omega) hiw
      have h3 : k + (i - k) = i := by omega
      simp [h1, h2, h3]

/-- The bitmask rounding of `alignUp` agrees with the modulo formula
`p + (a - p % a) % a` for any power-of-two alignment `a = 2 ^ k`, as long as
the 64-bit addition does not wrap. -/
theorem alignUp_eq {k p : Nat} (hk : k ≤ 64) (hp : p + 2 ^ k ≤ 2 ^ 64) :
    alignUp p (2 ^ k) = p + (2 ^ k - p % 2 ^ k) % 2 ^ k := by
  have ha : 0 < 2 ^ k := Nat.pos_pow_of_pos _ (by omega)
  have hdm := Nat.div_add_mod p (2 ^ k)
  have hq : p % 2 ^ k < 2 ^ k := Nat.mod_lt _ ha
  unfold alignUp
  rw [Nat.mod_eq_of_lt (by omega : p + 2 ^ k - 1 < 2 ^ 64)]
  rw [land_high_mask hk (by omega)]
  have e1 : (p + 2 ^ k - 1) % 2 ^ k =
      if p % 2 ^ k = 0 then 2 ^ k - 1 else p % 2 ^ k - 1 := by
    rcases Nat.eq_zero_or_pos (p % 2 ^ k) with h0 | h0
    · have hrw : p + 2 ^ k - 1 = 2 ^ k * (p / 2 ^ k) + (2 ^ k - 1) := by omega
      rw [hrw, Nat.mul_add_mod,
        Nat.mod_eq_of_lt (show 2 ^ k - 1 < 2 ^ k by omega)]
      simp [h0]
    · have hexp : 2 ^ k * (p / 2 ^ k + 1) = 2 ^ k * (p / 2 ^ k) + 2 ^ k :=
        Nat.mul_succ _ _
      have hrw : p + 2 ^ k - 1 = 2 ^ k * (p / 2 ^ k + 1) + (p % 2 ^ k - 1) := by
        omega
      rw [hrw, Nat.mul_add_mod,
        Nat.mod_eq_of_lt (show p % 2 ^ k - 1 < 2 ^ k by omega)]
      simp [Nat.ne_of_gt h0]
  have e2 : (2 ^ k - p % 2 ^ k) % 2 ^ k =
      if p % 2 ^ k = 0 then 0 else 2 ^ k - p % 2 ^ k := by
    rcases Nat.eq_zero_or_pos (p % 2 ^ k) with h0 | h0
    · simp [h0]
    · rw [Nat.mod_eq_of_lt (show 2 ^ k - p % 2 ^ k < 2 ^ k by omega)]
      simp [Nat.ne_of_gt h0]
  rcases Nat.eq_zero_or_pos (p % 2 ^ k) with h0 | h0
  · simp only [if_pos h0] at e1 e2
    omega
  · simp only [if_neg (Nat.ne_of_gt h0)] at e1 e2
    omega

/-! ### Catalog facts -/

/-- Every kind's alignment is a power of two with exponent at most 3. -/
theorem kind_align_pow (kind : Kind) : ∃ j, j ≤ 3 ∧ kind.align = 2 ^ j := by
  cases kind <;>
    first
      | exact ⟨0, by omega, rfl⟩
      | exact ⟨1, by omega, rfl⟩
      | exact ⟨2, by omega, rfl⟩
      | exact ⟨3, by omega, rfl⟩

theorem kind_align_pos (kind : Kind) : 0 < kind.align := by
  cases kind <;> simp [Kind.align]

theorem kind_align_le (kind : Kind) : kind.align ≤ 8 := by
  cases kind <;> simp [Kind.align]

theorem named_bit_lt : ∀ k ∈ namedKinds, k.bit < 31 := by decide

theorem named_size_le : ∀ k ∈ namedKinds, k.size ≤ 12 := by decide

theorem named_not_sentinel : ∀ k ∈ namedKinds, ¬ (k = Kind.VendorNamespace none) := by
  decide

theorem named_bit_inj :
    ∀ a ∈ namedKinds, ∀ b ∈ namedKinds, a.bit = b.bit → a = b := by decide

theorem kindOfBit_of_named : ∀ k ∈ namedKinds, kindOfBit k.bit = some k := by decide

theorem kindOfBit_bit {b : Nat} {k : Kind} (h : kindOfBit b = some k) :
    k.bit = b := by
  have := List.find?_some h
  simpa using this

/-- `alignUp` at a kind's alignment, rewritten by the modulo formula (valid
whenever the 64-bit addition cannot wrap; alignments are at most 8). -/
theorem alignUp_kind_eq (kind : Kind) {p : Nat} (hp : p + 8 ≤ 2 ^ 64) :
    alignUp p kind.align = p + (kind.align - p % kind.align) % kind.align := by
  obtain ⟨j, hj, ha⟩ := kind_align_pow kind
  have h8 : (2 : Nat) ^ j ≤ 2 ^ 3 := Nat.pow_le_pow_right (by omega) hj
  rw [ha]
  exact alignUp_eq (by omega) (by omega)

theorem alignUp_kind_ge (kind : Kind) {p : Nat} (hp : p + 8 ≤ 2 ^ 64) :
    p ≤ alignUp p kind.align := by
  rw [alignUp_kind_eq kind hp]
  omega

theorem alignUp_kind_lt (kind : Kind) {p : Nat} (hp : p + 8 ≤ 2 ^ 64) :
    alignUp p kind.align < p + kind.align := by
  have ha := kind_align_pos kind
  have := Nat.mod_lt (kind.align - p % kind.align) ha
  rw [alignUp_kind_eq kind hp]
  omega

/-! ### Sorted presence lists and bitmap recovery -/

/-- Two lists that are permutations of each other and both strictly sorted by
bit are equal. -/
theorem eq_of_perm_of_pairwise_bitlt :
    ∀ {l l' : List Kind}, l.Perm l' →
      l.Pairwise (fun a b => a.bit < b.bit) →
      l'.Pairwise (fun a b => a.bit < b.bit) → l = l' := by
  intro l
  induction l with
  | nil =>
    intro l' hp _ _
    have := hp.length_eq
    cases l' with
    | nil => rfl
    | cons b t' => simp at this
  | cons a t ih =>
    intro l' hp hs hs'
    cases l' with
    | nil =>
      have := hp.length_eq
      simp at this
    | cons b t' =>
      have hab : a = b := by
        have hamem : a ∈ b :: t' := hp.mem_iff.mp (List.mem_cons_self a t)
        have hbmem : b ∈ a :: t := hp.mem_iff.mpr (List.mem_cons_self b t')
        rcases List.mem_cons.mp hamem with h | h
        · exact h
        · rcases List.mem_cons.mp hbmem with h2 | h2
          · exact h2.symm
          · have h3 := (List.pairwise_cons.mp hs).1 b h2
            have h4 := (List.pairwise_cons.mp hs').1 a h
            omega
      subst hab
      rw [ih hp.cons_inv (List.pairwise_cons.mp hs).2 (List.pairwise_cons.mp hs').2]

/-- A strictly-by-bit sorted list has no duplicates. -/
theorem nodup_of_pairwise_bitlt {l : List Kind}
    (h : l.Pairwise (fun a b => a.bit < b.bit)) : l.Nodup :=
  h.imp (fun hlt heq => by subst heq; omega)

/-- `filterMap` transports pairwise facts along the partial map. -/
theorem pairwise_filterMap_of_pairwise {α β : Type} {R : α → α → Prop}
    {S : β → β → Prop} (f : α → Option β)
    (hf : ∀ a b c d, R a b → f a = some c → f b = some d → S c d) :
    ∀ {l : List α}, l.Pairwise R → (l.filterMap f).Pairwise S := by
  intro l
  induction l with
  | nil =>
    intro
    simp
  | cons a t ih =>
    intro hp
    rw [List.filterMap_cons]
    cases hfa : f a with
    | none => exact ih (List.pairwise_cons.mp hp).2
    | some c =>
      refine List.pairwise_cons.mpr ⟨?_, ih (List.pairwise_cons.mp hp).2⟩
      intro d hd
      obtain ⟨b, hb, hfb⟩ := List.mem_filterMap.mp hd
      exact hf a b c d ((List.pairwise_cons.mp hp).1 b hb) hfa hfb

theorem testBit_presentWord_aux (l : List Kind) (b : Nat) :
    ∀ acc : Nat,
      ((l.foldl (fun w k => w ||| 2 ^ k.bit) acc).testBit b = true ↔
        acc.testBit b = true ∨ ∃ k ∈ l, k.bit = b) := by
  induction l with
  | nil => simp
  | cons k t ih =>
    intro acc
    rw [List.foldl_cons, ih]
    simp only [Nat.testBit_or, Nat.testBit_two_pow, Bool.or_eq_true,
      decide_eq_true_eq, List.mem_cons]
    constructor
    · rintro (⟨h | h⟩ | ⟨k', hk', hb⟩)
      · exact Or.inl h
      · exact Or.inr ⟨k, Or.inl rfl, h⟩
      · exact Or.inr ⟨k', Or.inr hk', hb⟩
    · rintro (h | ⟨k', hk' | hk', hb⟩)
      · exact Or.inl (Or.inl h)
      · subst hk'
        exact Or.inl (Or.inr hb)
      · exact Or.inr ⟨k', hk', hb⟩

/-- A presence bit is set in the encoded word exactly when a present kind
carries that bit. -/
theorem testBit_presentWord {l : List Kind} {b : Nat} :
    ((presentWord l).testBit b = true) ↔ ∃ k ∈ l, k.bit = b := by
  unfold presentWord
  rw [testBit_presentWord_aux]
  simp

theorem presentWord_lt_aux (l : List Kind) (h : ∀ k ∈ l, k.bit < 31) :
    ∀ acc : Nat, acc < 2 ^ 31 →
      l.foldl (fun w k => w ||| 2 ^ k.bit) acc < 2 ^ 31 := by
  induction l with
  | nil =>
    intro acc hacc
    simpa using hacc
  | cons k t ih =>
    intro acc hacc
    rw [List.foldl_cons]
    refine ih (fun k' hk' => h k' (List.mem_cons_of_mem _ hk')) _
      (Nat.or_lt_two_pow hacc ?_)
    have hb := h k (List.mem_cons_self k t)
    have h1 : 2 ^ k.bit ≤ 2 ^ 30 := Nat.pow_le_pow_right (by omega) (by omega)
    have h2 : (2 : Nat) ^ 30 < 2 ^ 31 := by norm_num
    omega

/-- The bitmap word of a presence list of named kinds stays below the
continuation bit. -/
theorem presentWord_lt {l : List Kind} (h : l ⊆ namedKinds) :
    presentWord l < 2 ^ 31 :=
  presentWord_lt_aux l (fun k hk => named_bit_lt k (h hk)) 0 (by omega)

theorem mem_presentOfWord {w : Nat} {k : Kind} :
    k ∈ presentOfWord w ↔
      k.bit < 32 ∧ w.testBit k.bit = true ∧ kindOfBit k.bit = some k := by
  unfold presentOfWord
  simp only [List.mem_filterMap, List.mem_range]
  constructor
  · rintro ⟨b, hb, hfb⟩
    by_cases htb : w.testBit b = true
    · rw [if_pos htb] at hfb
      have hbit := kindOfBit_bit hfb
      subst hbit
      exact ⟨hb, htb, hfb⟩
    · rw [if_neg htb] at hfb
      cases hfb
  · rintro ⟨h1, h2, h3⟩
    exact ⟨k.bit, h1, by rw [if_pos h2]; exact h3⟩

theorem pairwise_presentOfWord (w : Nat) :
    (presentOfWord w).Pairwise (fun a b => a.bit < b.bit) := by
  unfold presentOfWord
  refine pairwise_filterMap_of_pairwise _ ?_ (List.pairwise_lt_range 32)
  intro a b c d hab hfc hfd
  by_cases ha : w.testBit a = true
  · by_cases hb : w.testBit b = true
    · rw [if_pos ha] at hfc
      rw [if_pos hb] at hfd
      rw [kindOfBit_bit hfc, kindOfBit_bit hfd]
      exact hab
    · rw [if_neg hb] at hfd
      cases hfd
  · rw [if_neg ha] at hfc
    cases hfc

/-- Decoding the bitmap word produced by a strictly sorted list of named kinds
recovers exactly that list. -/
theorem presentOfWord_presentWord {l : List Kind}
    (hsort : l.Pairwise (fun a b => a.bit < b.bit)) (hsub : l ⊆ namedKinds) :
    presentOfWord (presentWord l) = l := by
  have hsortA := pairwise_presentOfWord (presentWord l)
  have hmem : ∀ k, k ∈ presentOfWord (presentWord l) ↔ k ∈ l := by
    intro k
    rw [mem_presentOfWord]
    constructor
    · rintro ⟨hlt, htb, hof⟩
      obtain ⟨k', hk', hbit⟩ := testBit_presentWord.mp htb
      have hk'of : kindOfBit k'.bit = some k' := kindOfBit_of_named k' (hsub hk')
      rw [hbit, hof] at hk'of
      cases hk'of
      exact hk'
    · intro hk
      have hb := named_bit_lt k (hsub hk)
      exact ⟨by omega, testBit_presentWord.mpr ⟨k, hk, rfl⟩,
        kindOfBit_of_named k (hsub hk)⟩
  have hperm : List.Perm (presentOfWord (presentWord l)) l :=
    List.perm_of_nodup_nodup_toFinset_eq (nodup_of_pairwise_bitlt hsortA)
      (nodup_of_pairwise_bitlt hsort)
      (Finset.ext fun k => by
        simp only [List.mem_toFinset]
        exact hmem k)
  exact eq_of_perm_of_pairwise_bitlt hperm hsortA hsort

/-! ### Slot dispatch facts -/

theorem getSlot_setSlot_self {r : Radiotap} {k : Kind} {v : List Nat}
    (hk : k ∈ namedKinds) : getSlot (setSlot r k v) k = some v := by
  cases k <;> first | rfl | exact absurd hk (by simp [namedKinds])

theorem getSlot_setSlot_ne {r : Radiotap} {k k' : Kind} {v : List Nat}
    (h : k' ≠ k) : getSlot (setSlot r k v) k' = getSlot r k' := by
  cases k <;> cases k' <;> first | rfl | exact absurd rfl h

theorem header_setSlot (r : Radiotap) (k : Kind) (v : List Nat) :
    (setSlot r k v).header = r.header := by
  cases k <;> rfl

theorem getSlot_init (k : Kind) : getSlot Radiotap.init k = none := by
  cases k <;> rfl

theorem radiotap_ext {r r' : Radiotap} (hh : r.header = r'.header)
    (hs : ∀ k, getSlot r k = getSlot r' k) : r = r' := by
  cases r
  cases r'
  simp only [Radiotap.mk.injEq]
  exact ⟨hh, hs .TSFT, hs .Flags, hs .Rate, hs .Channel, hs .FHSS,
    hs .AntennaSignal, hs .AntennaNoise, hs .LockQuality, hs .TxAttenuation,
    hs .TxAttenuationDb, hs .TxPower, hs .Antenna, hs .AntennaSignalDb,
    hs .AntennaNoiseDb, hs .RxFlags, hs .TxFlags, hs .RTSRetries,
    hs .DataRetries, hs .XChannel, hs .MCS, hs .AMPDUStatus, hs .VHT,
    hs .Timestamp⟩

/-! ### Iterator step claims -/

theorem byteSlice_length {data : List Nat} {a b : Nat} :
    (byteSlice data a b).length = min (b - a) (data.length - a) := by
  unfold byteSlice
  simp [List.length_take, List.length_drop]

/-- Claim C3: on an iterator step for a non-vendor kind, when the field window
`start + size` (after rounding the cursor up to the kind's alignment) exceeds
the governed region's length, the step yields `IncompleteError` and yields no
`(Kind, data)` item for that field. -/
theorem c3_truncated_field_incomplete (kind : Kind) (rest : List Kind)
    (pos : Nat) (data : List Nat)
    (_hnv : ∀ v, kind ≠ Kind.VendorNamespace v)
    (hov : alignUp pos kind.align + kind.size > data.length) :
    (iterNext ⟨kind :: rest, pos⟩ data).1 = some (.fail .IncompleteError) := by
  unfold iterNext iterNextCore
  simp only [if_pos hov]

/-- Claim C3 witness: a rate field promised at offset 9 of a 9-byte region. -/
theorem c3_truncated_field_incomplete_witness :
    (∀ v, Kind.Rate ≠ Kind.VendorNamespace v) ∧
    alignUp 9 Kind.Rate.align + Kind.Rate.size > (List.replicate 9 0).length ∧
    (iterNext ⟨[Kind.Rate], 9⟩ (List.replicate 9 0)).1 =
      some (.fail .IncompleteError) :=
  ⟨fun v => by simp, by decide,
    c3_truncated_field_incomplete Kind.Rate [] 9 (List.replicate 9 0)
      (fun v => by simp) (by decide)⟩

/-- Claim C2 (code bug evidence): a vendor-namespace field whose descriptor
decodes successfully but whose widened window `end + skip_length` exceeds the
governed region does not yield `IncompleteError`; the slice expression panics.
Here the region is 14 bytes, the descriptor sits at bytes 8-13 with
`skip_length = 5`, so the widened end 19 is out of range. -/
theorem c2_vendor_overrun_panics :
    (iterNext ⟨[Kind.VendorNamespace none], 8⟩
      [0, 0, 0, 0, 0, 0, 0, 0, 1, 2, 3, 0, 5, 0]).1 = some .panicked := by
  decide

/-- On any yielded error, the cursor sits at the aligned position (the popped
kind is gone and the cursor was moved only by the alignment step). -/
theorem iterNextCore_fail_pos {kind : Kind} {pos : Nat} {data : List Nat}
    {e : Error} {pos' : Nat}
    (h : iterNextCore kind pos data = (.fail e, pos')) :
    pos' = alignUp pos kind.align := by
  unfold iterNextCore at h
  dsimp only at h
  split at h
  · simp only [Prod.mk.injEq] at h
    exact h.2.symm
  · split at h
    · split at h
      · split at h
        · simp at h
        · simp at h
      · simp only [Prod.mk.injEq] at h
        exact h.2.symm
    · simp at h

/-- Claim C10 counterexample: after an `IncompleteError` the cursor can have
moved (by the alignment step): a channel field popped at cursor 9 in a 10-byte
region aligns the cursor to 10, then fails the bounds check, leaving the
cursor at 10, not 9. -/
theorem c10_counterexample :
    (iterNext ⟨[Kind.Channel, Kind.Rate], 9⟩ (List.replicate 10 0)).1 =
      some (.fail .IncompleteError) ∧
    (iterNext ⟨[Kind.Channel, Kind.Rate], 9⟩ (List.replicate 10 0)).2.pos ≠ 9 := by
  decide

/-- Claim C10 (amended): after `next()` yields `IncompleteError`, the iterator
is not fused: the popped kind is not restored and the cursor has advanced only
to the aligned position (not past the field), so when further kinds remain the
next call pops the following kind and yields another outcome instead of
returning `None`. -/
theorem c10_not_fused_on_error (kind : Kind) (rest : List Kind) (pos : Nat)
    (data : List Nat)
    (h : (iterNext ⟨kind :: rest, pos⟩ data).1 = some (.fail .IncompleteError)) :
    (iterNext ⟨kind :: rest, pos⟩ data).2 =
      ⟨rest, alignUp pos kind.align⟩ ∧
    (rest ≠ [] →
      (iterNext ((iterNext ⟨kind :: rest, pos⟩ data).2) data).1 ≠ none) := by
  rcases hcore : iterNextCore kind pos data with ⟨out, pos'⟩
  have hns : iterNext ⟨kind :: rest, pos⟩ data = (some out, ⟨rest, pos'⟩) := by
    show (some (iterNextCore kind pos data).1,
      (⟨rest, (iterNextCore kind pos data).2⟩ : IterState)) = _
    rw [hcore]
  rw [hns] at h ⊢
  have hout : out = .fail .IncompleteError := by
    injection h
  subst hout
  have hpos : pos' = alignUp pos kind.align := iterNextCore_fail_pos hcore
  subst hpos
  refine ⟨rfl, ?_⟩
  intro hne
  cases rest with
  | nil => exact absurd rfl hne
  | cons k2 r2 =>
    show (some (iterNextCore k2 (alignUp pos kind.align) data).1,
      (⟨r2, (iterNextCore k2 (alignUp pos kind.align) data).2⟩ : IterState)).1 ≠ none
    simp

/-- Claim C4: when the iterator yields a vendor-namespace item whose descriptor
decoded successfully, the yielded data slice starts immediately after the
6-byte descriptor (excluding it), its length is exactly the descriptor's
`skip_length`, and the cursor advances past the skipped payload, so any
subsequent field is read from immediately after it. -/
theorem c4_vendor_splice (pos : Nat) (rest : List Kind) (data d : List Nat)
    (vns : VNS) (s' : IterState)
    (h : iterNext ⟨Kind.VendorNamespace none :: rest, pos⟩ data =
      (some (.item (Kind.VendorNamespace (some vns)) d), s')) :
    d = byteSlice data (alignUp pos 2 + 6) (alignUp pos 2 + 6 + vns.skip_length)
    ∧ d.length = vns.skip_length
    ∧ s'.pos = alignUp pos 2 + 6 + vns.skip_length := by
  rcases hcore : iterNextCore (Kind.VendorNamespace none) pos data with ⟨out, pos'⟩
  have hns : iterNext ⟨Kind.VendorNamespace none :: rest, pos⟩ data
      = (some out, ⟨rest, pos'⟩) := by
    show (some (iterNextCore (Kind.VendorNamespace none) pos data).1,
      (⟨rest, (iterNextCore (Kind.VendorNamespace none) pos data).2⟩ : IterState)) = _
    rw [hcore]
  rw [hns] at h
  simp only [Prod.mk.injEq, Option.some.injEq] at h
  obtain ⟨hout, hs'⟩ := h
  subst hout
  subst hs'
  unfold iterNextCore at hcore
  dsimp only at hcore
  split at hcore
  · simp at hcore
  · split at hcore
    · split at hcore
      · split at hcore
        · simp at hcore
        · rename_i hlen1 hvns hstop
          simp only [Prod.mk.injEq, StepOut.item.injEq, Kind.VendorNamespace.injEq,
            Option.some.injEq] at hcore
          obtain ⟨⟨hv, hd⟩, hp⟩ := hcore
          subst hv
          refine ⟨hd.symm, ?_, hp.symm⟩
          rw [← hd, byteSlice_length]
          omega
      · simp at hcore
    · rename_i hcontra
      exact absurd rfl hcontra

/-- Claim C4 witness: a vendor field at offset 8 with `skip_length = 2` in a
16-byte region. -/
theorem c4_vendor_splice_witness :
    ([7, 7] : List Nat) =
      byteSlice [0, 0, 0, 0, 0, 0, 0, 0, 1, 2, 3, 0, 2, 0, 7, 7]
        (alignUp 8 2 + 6) (alignUp 8 2 + 6 + (⟨[1, 2, 3], 0, 2⟩ : VNS).skip_length)
    ∧ ([7, 7] : List Nat).length = (⟨[1, 2, 3], 0, 2⟩ : VNS).skip_length
    ∧ (⟨[], 16⟩ : IterState).pos =
        alignUp 8 2 + 6 + (⟨[1, 2, 3], 0, 2⟩ : VNS).skip_length :=
  c4_vendor_splice 8 [] [0, 0, 0, 0, 0, 0, 0, 0, 1, 2, 3, 0, 2, 0, 7, 7]
    [7, 7] ⟨[1, 2, 3], 0, 2⟩ ⟨[], 16⟩ (by decide)

/-- Claim C10 witness: the concrete error step of the counterexample, showing
the successor state and that iteration continues. -/
theorem c10_not_fused_on_error_witness :
    (iterNext ⟨[Kind.Channel, Kind.Rate], 9⟩ (List.replicate 10 0)).2 =
      ⟨[Kind.Rate], alignUp 9 Kind.Channel.align⟩ ∧
    ([Kind.Rate] ≠ ([] : List Kind) →
      (iterNext ((iterNext ⟨[Kind.Channel, Kind.Rate], 9⟩
        (List.replicate 10 0)).2) (List.replicate 10 0)).1 ≠ none) :=
  c10_not_fused_on_error Kind.Channel [Kind.Rate] 9 (List.replicate 10 0)
    (by decide)

/-! ### Builder facts -/

theorem set_header_length (b : RadiotapBuilder) (k : Kind) (v : List Nat) :
    (RadiotapBuilder.set b k v).header.length = b.header.length := by
  unfold RadiotapBuilder.set
  by_cases h : k ∈ b.header.present <;> simp [h, header_setSlot]

theorem set_present (b : RadiotapBuilder) (k : Kind) (v : List Nat) :
    (RadiotapBuilder.set b k v).header.present =
      if k ∈ b.header.present then b.header.present
      else b.header.present ++ [k] := by
  unfold RadiotapBuilder.set
  by_cases h : k ∈ b.header.present <;> simp [h, header_setSlot]

theorem mem_set_present {b : RadiotapBuilder} {k k' : Kind} {v : List Nat} :
    k' ∈ (RadiotapBuilder.set b k v).header.present ↔
      k' = k ∨ k' ∈ b.header.present := by
  rw [set_present]
  by_cases h : k ∈ b.header.present
  · rw [if_pos h]
    constructor
    · exact Or.inr
    · rintro (rfl | h')
      · exact h
      · exact h'
  · rw [if_neg h]
    simp only [List.mem_append, List.mem_singleton]
    tauto

theorem nodup_set_present {b : RadiotapBuilder} {k : Kind} {v : List Nat}
    (h : b.header.present.Nodup) :
    (RadiotapBuilder.set b k v).header.present.Nodup := by
  rw [set_present]
  by_cases hm : k ∈ b.header.present
  · rw [if_pos hm]
    exact h
  · rw [if_neg hm]
    simp [List.nodup_append, h, hm]

theorem applyCalls_cons (b : RadiotapBuilder) (c : Kind × List Nat)
    (cs : List (Kind × List Nat)) :
    applyCalls b (c :: cs) = applyCalls (RadiotapBuilder.set b c.1 c.2) cs := rfl

theorem applyCalls_length (calls : List (Kind × List Nat)) :
    ∀ b : RadiotapBuilder,
      (applyCalls b calls).header.length = b.header.length := by
  induction calls with
  | nil => intro b; rfl
  | cons c cs ih =>
    intro b
    rw [applyCalls_cons, ih, set_header_length]

theorem applyCalls_nodup (calls : List (Kind × List Nat)) :
    ∀ b : RadiotapBuilder, b.header.present.Nodup →
      (applyCalls b calls).header.present.Nodup := by
  induction calls with
  | nil => intro b h; exact h
  | cons c cs ih =>
    intro b h
    rw [applyCalls_cons]
    exact ih _ (nodup_set_present h)

theorem mem_applyCalls (calls : List (Kind × List Nat)) :
    ∀ (b : RadiotapBuilder) (k : Kind),
      k ∈ (applyCalls b calls).header.present ↔
        k ∈ b.header.present ∨ ∃ p ∈ calls, p.1 = k := by
  induction calls with
  | nil =>
    intro b k
    simp [applyCalls]
  | cons c cs ih =>
    intro b k
    rw [applyCalls_cons, ih]
    simp only [mem_set_present, List.mem_cons]
    constructor
    · rintro ((rfl | h) | ⟨p, hp, hk⟩)
      · exact Or.inr ⟨c, Or.inl rfl, rfl⟩
      · exact Or.inl h
      · exact Or.inr ⟨p, Or.inr hp, hk⟩
    · rintro (h | ⟨p, hp | hp, hk⟩)
      · exact Or.inl (Or.inr h)
      · subst hp
        exact Or.inl (Or.inl hk.symm)
      · exact Or.inr ⟨p, hp, hk⟩

/-- Strictly-by-bit sortedness from weak sortedness, no duplicates, and named
kinds (whose bits are injective). -/
theorem pairwise_strict_of_le_nodup :
    ∀ {l : List Kind}, l ⊆ namedKinds → l.Pairwise bitLE → l.Nodup →
      l.Pairwise (fun a b => a.bit < b.bit) := by
  intro l
  induction l with
  | nil =>
    intro _ _ _
    exact List.Pairwise.nil
  | cons a t ih =>
    intro hsub hle hnd
    rw [List.pairwise_cons] at hle ⊢
    rw [List.nodup_cons] at hnd
    refine ⟨?_, ih (fun x hx => hsub (List.mem_cons_of_mem _ hx)) hle.2 hnd.2⟩
    intro b hb
    have h1 : a.bit ≤ b.bit := hle.1 b hb
    rcases Nat.lt_or_ge a.bit b.bit with h | h
    · exact h
    · have heq : a.bit = b.bit := by omega
      have : a = b :=
        named_bit_inj a (hsub (List.mem_cons_self a t)) b
          (hsub (List.mem_cons_of_mem _ hb)) heq
      subst this
      exact absurd hb hnd.1

theorem done_present (b : RadiotapBuilder) :
    (RadiotapBuilder.done b).header.present =
      List.insertionSort bitLE b.header.present := rfl

theorem done_length (b : RadiotapBuilder) :
    (RadiotapBuilder.done b).header.length =
      foldLength b.header.length (List.insertionSort bitLE b.header.present) := rfl

/-- Claim C5: applying any permutation of a list of builder setter calls and
finalising yields a present list sorted (strictly) ascending by bit, the same
present list, and the same header length as the original order. -/
theorem c5_builder_order_independence (calls calls' : List (Kind × List Nat))
    (hn : ∀ p ∈ calls, p.1 ∈ namedKinds) (hperm : List.Perm calls calls') :
    (RadiotapBuilder.done (applyCalls RadiotapBuilder.new calls)).header.present.Pairwise
      (fun a b => a.bit < b.bit)
    ∧ (RadiotapBuilder.done (applyCalls RadiotapBuilder.new calls)).header.present =
      (RadiotapBuilder.done (applyCalls RadiotapBuilder.new calls')).header.present
    ∧ (RadiotapBuilder.done (applyCalls RadiotapBuilder.new calls)).header.length =
      (RadiotapBuilder.done (applyCalls RadiotapBuilder.new calls')).header.length := by
  have hn' : ∀ p ∈ calls', p.1 ∈ namedKinds := fun p hp =>
    hn p (hperm.mem_iff.mpr hp)
  have hnil : (RadiotapBuilder.new : Radiotap).header.present = [] := rfl
  have hsub1 : (applyCalls RadiotapBuilder.new calls).header.present ⊆ namedKinds := by
    intro k hk
    rw [mem_applyCalls] at hk
    rcases hk with hk | ⟨p, hp, rfl⟩
    · rw [hnil] at hk
      cases hk
    · exact hn p hp
  have hsub2 : (applyCalls RadiotapBuilder.new calls').header.present ⊆ namedKinds := by
    intro k hk
    rw [mem_applyCalls] at hk
    rcases hk with hk | ⟨p, hp, rfl⟩
    · rw [hnil] at hk
      cases hk
    · exact hn' p hp
  have hnd1 : (applyCalls RadiotapBuilder.new calls).header.present.Nodup :=
    applyCalls_nodup _ _ (by rw [hnil]; exact List.nodup_nil)
  have hnd2 : (applyCalls RadiotapBuilder.new calls').header.present.Nodup :=
    applyCalls_nodup _ _ (by rw [hnil]; exact List.nodup_nil)
  have hmemeq : ∀ k, k ∈ (applyCalls RadiotapBuilder.new calls).header.present ↔
      k ∈ (applyCalls RadiotapBuilder.new calls').header.present := by
    intro k
    rw [mem_applyCalls, mem_applyCalls]
    constructor
    · rintro (h | ⟨p, hp, rfl⟩)
      · exact Or.inl h
      · exact Or.inr ⟨p, hperm.mem_iff.mp hp, rfl⟩
    · rintro (h | ⟨p, hp, rfl⟩)
      · exact Or.inl h
      · exact Or.inr ⟨p, hperm.mem_iff.mpr hp, rfl⟩
  have hpermp : List.Perm (applyCalls RadiotapBuilder.new calls).header.present
      (applyCalls RadiotapBuilder.new calls').header.present :=
    List.perm_of_nodup_nodup_toFinset_eq hnd1 hnd2
      (Finset.ext fun k => by
        simp only [List.mem_toFinset]
        exact hmemeq k)
  have hps1 := List.perm_insertionSort bitLE
    (applyCalls RadiotapBuilder.new calls).header.present
  have hps2 := List.perm_insertionSort bitLE
    (applyCalls RadiotapBuilder.new calls').header.present
  have hstrict1 : (List.insertionSort bitLE
      (applyCalls RadiotapBuilder.new calls).header.present).Pairwise
      (fun a b => a.bit < b.bit) :=
    pairwise_strict_of_le_nodup (fun x hx => hsub1 (hps1.subset hx))
      (List.sorted_insertionSort bitLE _) (hps1.nodup_iff.mpr hnd1)
  have hstrict2 : (List.insertionSort bitLE
      (applyCalls RadiotapBuilder.new calls').header.present).Pairwise
      (fun a b => a.bit < b.bit) :=
    pairwise_strict_of_le_nodup (fun x hx => hsub2 (hps2.subset hx))
      (List.sorted_insertionSort bitLE _) (hps2.nodup_iff.mpr hnd2)
  have heq : List.insertionSort bitLE
      (applyCalls RadiotapBuilder.new calls).header.present =
      List.insertionSort bitLE
        (applyCalls RadiotapBuilder.new calls').header.present :=
    eq_of_perm_of_pairwise_bitlt (hps1.trans (hpermp.trans hps2.symm))
      hstrict1 hstrict2
  refine ⟨?_, ?_, ?_⟩
  · rw [done_present]
    exact hstrict1
  · rw [done_present, done_present]
    exact heq
  · rw [done_length, done_length, heq, applyCalls_length, applyCalls_length]

/-- Claim C5 witness: two concrete permuted call sequences. -/
theorem c5_builder_order_independence_witness :
    (∀ p ∈ [(Kind.Rate, [9]), (Kind.TSFT, List.replicate 8 0)],
      p.1 ∈ namedKinds) ∧
    List.Perm [(Kind.Rate, [9]), (Kind.TSFT, List.replicate 8 0)]
      [(Kind.TSFT, List.replicate 8 0), (Kind.Rate, [9])] ∧
    ((RadiotapBuilder.done (applyCalls RadiotapBuilder.new
        [(Kind.Rate, [9]), (Kind.TSFT, List.replicate 8 0)])).header.present.Pairwise
        (fun a b => a.bit < b.bit)
      ∧ (RadiotapBuilder.done (applyCalls RadiotapBuilder.new
          [(Kind.Rate, [9]), (Kind.TSFT, List.replicate 8 0)])).header.present =
        (RadiotapBuilder.done (applyCalls RadiotapBuilder.new
          [(Kind.TSFT, List.replicate 8 0), (Kind.Rate, [9])])).header.present
      ∧ (RadiotapBuilder.done (applyCalls RadiotapBuilder.new
          [(Kind.Rate, [9]), (Kind.TSFT, List.replicate 8 0)])).header.length =
        (RadiotapBuilder.done (applyCalls RadiotapBuilder.new
          [(Kind.TSFT, List.replicate 8 0), (Kind.Rate, [9])])).header.length) :=
  ⟨by decide, List.Perm.swap _ _ _,
    c5_builder_order_independence _ _ (by decide) (List.Perm.swap _ _ _)⟩

/-- Claim C6: setting the same kind twice keeps a single presence entry in its
original position (the presence list is unchanged by the second call) and the
stored slot value is the last one written. -/
theorem c6_builder_last_write_wins (calls : List (Kind × List Nat)) (k : Kind)
    (a b : List Nat) (hk : k ∈ namedKinds) :
    (RadiotapBuilder.set (RadiotapBuilder.set
        (applyCalls RadiotapBuilder.new calls) k a) k b).header.present =
      (RadiotapBuilder.set (applyCalls RadiotapBuilder.new calls) k a).header.present
    ∧ (RadiotapBuilder.set (RadiotapBuilder.set
        (applyCalls RadiotapBuilder.new calls) k a) k b).header.present.count k = 1
    ∧ getSlot (RadiotapBuilder.set (RadiotapBuilder.set
        (applyCalls RadiotapBuilder.new calls) k a) k b) k = some b := by
  have hmem1 : k ∈ (RadiotapBuilder.set
      (applyCalls RadiotapBuilder.new calls) k a).header.present :=
    mem_set_present.mpr (Or.inl rfl)
  have hnd1 : (RadiotapBuilder.set
      (applyCalls RadiotapBuilder.new calls) k a).header.present.Nodup :=
    nodup_set_present (applyCalls_nodup _ _ List.nodup_nil)
  have hpres : (RadiotapBuilder.set (RadiotapBuilder.set
      (applyCalls RadiotapBuilder.new calls) k a) k b).header.present =
      (RadiotapBuilder.set
        (applyCalls RadiotapBuilder.new calls) k a).header.present := by
    rw [set_present, if_pos hmem1]
  refine ⟨hpres, ?_, ?_⟩
  · rw [hpres]
    exact List.count_eq_one_of_mem hnd1 hmem1
  · show getSlot (setSlot _ k b) k = some b
    exact getSlot_setSlot_self hk

/-- Claim C6 witness: set rate twice from a fresh builder. -/
theorem c6_builder_last_write_wins_witness :
    Kind.Rate ∈ namedKinds ∧
    ((RadiotapBuilder.set (RadiotapBuilder.set
        (applyCalls RadiotapBuilder.new []) Kind.Rate [1]) Kind.Rate [2]).header.present =
      (RadiotapBuilder.set (applyCalls RadiotapBuilder.new [])
        Kind.Rate [1]).header.present
    ∧ (RadiotapBuilder.set (RadiotapBuilder.set
        (applyCalls RadiotapBuilder.new []) Kind.Rate [1]) Kind.Rate [2]).header.present.count
        Kind.Rate = 1
    ∧ getSlot (RadiotapBuilder.set (RadiotapBuilder.set
        (applyCalls RadiotapBuilder.new []) Kind.Rate [1]) Kind.Rate [2])
        Kind.Rate = some [2]) :=
  ⟨by decide, c6_builder_last_write_wins [] Kind.Rate [1] [2] (by decide)⟩

/-- Claim C8: building with exactly tsft, rate and channel set computes header
length 22 through the fold 8 to 16 (tsft), 16 to 17 (rate), 17 rounded up to
alignment 2 giving 18, plus 4 giving 22. -/
theorem c8_concrete_fold :
    (RadiotapBuilder.done (applyCalls RadiotapBuilder.new
      [(Kind.TSFT, List.replicate 8 0), (Kind.Rate, [0]),
       (Kind.Channel, List.replicate 4 0)])).header.length = 22
    ∧ (RadiotapBuilder.done (applyCalls RadiotapBuilder.new
      [(Kind.TSFT, List.replicate 8 0), (Kind.Rate, [0]),
       (Kind.Channel, List.replicate 4 0)])).header.present =
      [Kind.TSFT, Kind.Rate, Kind.Channel]
    ∧ foldLength 8 [Kind.TSFT] = 16
    ∧ foldLength 8 [Kind.TSFT, Kind.Rate] = 17
    ∧ alignUp 17 Kind.Channel.align = 18
    ∧ foldLength 8 [Kind.TSFT, Kind.Rate, Kind.Channel] = 22 := by
  decide

/-! ### Parse dispatch facts -/

theorem parseStep_header {r r' : Radiotap} {k : Kind} {d : List Nat}
    (h : parseStep r k d = .ok r') : r'.header = r.header := by
  cases k
  case VendorNamespace vns =>
    cases h
    rfl
  all_goals (
    unfold parseStep at h
    dsimp only at h
    revert h
    split
    · intro h
      cases h
      exact header_setSlot _ _ _
    · intro h
      cases h)

theorem runFields_header :
    ∀ (l : List Kind) (r r' : Radiotap) (pos : Nat) (data : List Nat),
      runFields r l pos data = .ok r' → r'.header = r.header := by
  intro l
  induction l with
  | nil =>
    intro r r' pos data h
    cases h
    rfl
  | cons k t ih =>
    intro r r' pos data h
    unfold runFields at h
    rcases hcore : iterNextCore k pos data with ⟨out, pos'⟩
    rw [hcore] at h
    cases out with
    | panicked => cases h
    | fail e => cases h
    | item k2 d =>
      dsimp only at h
      rcases hps : parseStep r k2 d with e | r2
      · rw [hps] at h
        cases h
      · rw [hps] at h
        exact (ih _ _ _ _ h).trans (parseStep_header hps)

/-- Claim C9: a yielded pair whose kind has no typed slot (the vendor-namespace
sentinel, decoded or not, being the only slotless kind of the closed catalog)
is discarded without error by the parse dispatch, and a successful parse
returns exactly the decoded header, so such kinds stay recorded in
`header.present`. -/
theorem c9_slotless_kinds_discarded :
    (∀ (r : Radiotap) (vns : Option VNS) (d : List Nat),
      parseStep r (Kind.VendorNamespace vns) d = .ok r)
    ∧ (∀ (input : List Nat) (r : Radiotap) (rest : List Nat),
        Radiotap.parse input = .ok (r, rest) →
        headerDecode input = .ok r.header) := by
  constructor
  · intro r vns d
    rfl
  · intro input r rest h
    unfold Radiotap.parse at h
    rcases hd : headerDecode input with e | hdr
    · rw [hd] at h
      cases h
    · rw [hd] at h
      dsimp only at h
      rcases hr : runFields { Radiotap.init with header := hdr } hdr.present
          hdr.size (input.take hdr.length) with _ | e | r2
      · rw [hr] at h
        cases h
      · rw [hr] at h
        cases h
      · rw [hr] at h
        cases h
        rw [runFields_header _ _ _ _ _ hr]

/-- Claim C9 witness: a capture whose presence word sets bit 2 (rate) and
bit 30 (vendor namespace); parsing succeeds, the rate slot is filled, the
vendor data is discarded, and the vendor sentinel stays in the header. -/
theorem c9_slotless_kinds_discarded_witness :
    Radiotap.parse [0, 0, 18, 0, 4, 0, 0, 64, 9, 0, 1, 2, 3, 4, 2, 0, 7, 7] =
      .ok ({ Radiotap.init with
              header := { version := 0, length := 18,
                          present := [Kind.Rate, Kind.VendorNamespace none],
                          size := 8 },
              rate := some [9] }, [])
    ∧ headerDecode [0, 0, 18, 0, 4, 0, 0, 64, 9, 0, 1, 2, 3, 4, 2, 0, 7, 7] =
      .ok ({ Radiotap.init with
              header := { version := 0, length := 18,
                          present := [Kind.Rate, Kind.VendorNamespace none],
                          size := 8 },
              rate := some [9] } : Radiotap).header :=
  ⟨by decide,
    c9_slotless_kinds_discarded.2 _ _ [] (by decide)⟩

/-- Claim C7: for a power-of-two alignment `2 ^ k` and a running offset `p`
that is not a multiple of it, the bitmask rounding used by the builder fold and
by unparse equals the modulo formula, so exactly `(a - p % a) % a` zero bytes
are inserted before the field: the unparse emission starts with that many zero
bytes and the builder's length fold advances by that amount plus the field
size. -/
theorem c7_alignment_padding (k p : Nat) (hk : k ≤ 64) (hp : p + 2 ^ k ≤ 2 ^ 64)
    (_hm : p % 2 ^ k ≠ 0) :
    alignUp p (2 ^ k) = p + (2 ^ k - p % 2 ^ k) % 2 ^ k
    ∧ ∀ (v : Radiotap) (kind : Kind) (l : List Kind), kind.align = 2 ^ k →
        ((emitFields v (kind :: l) p).1 =
          List.replicate ((2 ^ k - p % 2 ^ k) % 2 ^ k) 0 ++
            ((getSlot v kind).getD []) ++
            (emitFields v l (p + (2 ^ k - p % 2 ^ k) % 2 ^ k +
              ((getSlot v kind).getD []).length)).1
        ∧ foldLength p (kind :: l) =
            foldLength (p + (2 ^ k - p % 2 ^ k) % 2 ^ k + kind.size) l) := by
  have halign := alignUp_eq hk hp
  refine ⟨halign, ?_⟩
  intro v kind l ha
  have he : alignUp p kind.align = p + (2 ^ k - p % 2 ^ k) % 2 ^ k := by
    rw [ha]
    exact halign
  constructor
  · conv_lhs => rw [emitFields]
    dsimp only
    rw [he]
    have hsub : p + (2 ^ k - p % 2 ^ k) % 2 ^ k - p =
        (2 ^ k - p % 2 ^ k) % 2 ^ k := by omega
    rw [hsub, List.length_replicate]
  · show foldLength (alignUp p kind.align + kind.size) l = _
    rw [he]

/-- Claim C7 witness: a channel field (alignment 2) inserted at offset 17, the
spec's own concrete scenario. -/
theorem c7_alignment_padding_witness :
    17 % 2 ^ 1 ≠ 0 ∧
    ((emitFields Radiotap.init [Kind.Channel] 17).1 =
      List.replicate ((2 ^ 1 - 17 % 2 ^ 1) % 2 ^ 1) 0 ++
        ((getSlot Radiotap.init Kind.Channel).getD []) ++
        (emitFields Radiotap.init []
          (17 + (2 ^ 1 - 17 % 2 ^ 1) % 2 ^ 1 +
            ((getSlot Radiotap.init Kind.Channel).getD []).length)).1
    ∧ foldLength 17 [Kind.Channel] =
        foldLength (17 + (2 ^ 1 - 17 % 2 ^ 1) % 2 ^ 1 + Kind.Channel.size) []) :=
  ⟨by decide,
    (c7_alignment_padding 1 17 (by omega) (by decide) (by decide)).2
      Radiotap.init Kind.Channel [] rfl⟩

/-! ### Round-trip development -/

theorem getD_append_left {l l' : List Nat} {n : Nat} (h : n < l.length) :
    (l ++ l').getD n 0 = l.getD n 0 := by
  simp [List.getD_eq_getElem?_getD, List.getElem?_append_left h]

theorem byteSlice_take (X Y : List Nat) (b : Nat) :
    byteSlice (X ++ Y) X.length b = Y.take (b - X.length) := by
  unfold byteSlice
  rw [List.drop_left]

theorem parseStep_ok_named {r : Radiotap} {k : Kind} {d : List Nat}
    (hk : k ∈ namedKinds) (hlen : k.size ≤ d.length) :
    parseStep r k d = .ok (setSlot r k (d.take k.size)) := by
  fin_cases hk <;> simp [parseStep, fieldFromBytes, hlen]

/-- Bookkeeping for the unparse emission loop: the reported final count is the
builder's fold, the emitted bytes account exactly for the growth of the count,
and the count grows by at most 20 bytes per field. -/
theorem emit_spec (v : Radiotap) :
    ∀ (l : List Kind) (s : Nat),
      l ⊆ namedKinds →
      (∀ k ∈ l, (getSlot v k).map List.length = some k.size) →
      s + 20 * l.length + 8 ≤ 2 ^ 64 →
      (emitFields v l s).2 = foldLength s l
      ∧ s + (emitFields v l s).1.length = foldLength s l
      ∧ s ≤ foldLength s l
      ∧ foldLength s l ≤ s + 20 * l.length := by
  intro l
  induction l with
  | nil =>
    intro s _ _ _
    have h0 : foldLength s [] = s := rfl
    have h1 : (emitFields v [] s).1.length = 0 := rfl
    exact ⟨rfl, by omega, by omega, by omega⟩
  | cons kind rest ih =>
    intro s hsub hslots hbound
    obtain ⟨fb, hfb, hlen⟩ : ∃ fb, getSlot v kind = some fb ∧
        fb.length = kind.size := by
      have hx := hslots kind (List.mem_cons_self kind rest)
      cases hgs : getSlot v kind with
      | none =>
        rw [hgs] at hx
        cases hx
      | some fb =>
        rw [hgs] at hx
        injection hx with hx
        exact ⟨fb, rfl, hx⟩
    have hk : kind ∈ namedKinds := hsub (List.mem_cons_self kind rest)
    have hlen1 : (kind :: rest).length = rest.length + 1 := rfl
    have hs8 : s + 8 ≤ 2 ^ 64 := by omega
    have hge := alignUp_kind_ge kind hs8
    have hlt := alignUp_kind_lt kind hs8
    have hale := kind_align_le kind
    have hsz := named_size_le kind hk
    have hoff : s + (List.replicate (alignUp s kind.align - s) 0).length +
        ((getSlot v kind).getD []).length = alignUp s kind.align + kind.size := by
      rw [hfb, List.length_replicate]
      simp only [Option.getD_some]
      omega
    have hemit : emitFields v (kind :: rest) s =
        (List.replicate (alignUp s kind.align - s) 0 ++ fb ++
          (emitFields v rest (alignUp s kind.align + kind.size)).1,
         (emitFields v rest (alignUp s kind.align + kind.size)).2) := by
      conv_lhs => rw [emitFields]
      rw [hoff, hfb]
      rfl
    have hfold : foldLength s (kind :: rest) =
        foldLength (alignUp s kind.align + kind.size) rest := rfl
    obtain ⟨ih1, ih2, ih3, ih4⟩ := ih (alignUp s kind.align + kind.size)
      (fun x hx => hsub (List.mem_cons_of_mem _ hx))
      (fun x hx => hslots x (List.mem_cons_of_mem _ hx))
      (by omega)
    refine ⟨?_, ?_, ?_, ?_⟩
    · rw [hemit, hfold]
      exact ih1
    · rw [hemit, hfold]
      simp only [List.length_append, List.length_replicate]
      omega
    · rw [hfold]
      omega
    · rw [hfold]
      have : 20 * (kind :: rest).length = 20 * rest.length + 20 := by
        simp [List.length_cons]
        omega
      omega

/-- Driving the parse loop over the bytes its own unparse emission produced
fills exactly the slots of the emitted kinds with the emitted values. -/
theorem runFields_roundtrip (v : Radiotap) :
    ∀ (l : List Kind) (r : Radiotap) (P data : List Nat),
      data = P ++ (emitFields v l P.length).1 →
      l ⊆ namedKinds →
      (∀ k ∈ l, (getSlot v k).map List.length = some k.size) →
      data.length + 8 ≤ 2 ^ 64 →
      ∃ r', runFields r l P.length data = .ok r'
        ∧ r'.header = r.header
        ∧ (∀ k, getSlot r' k = if k ∈ l then getSlot v k else getSlot r k) := by
  intro l
  induction l with
  | nil =>
    intro r P data _ _ _ _
    refine ⟨r, rfl, rfl, fun k => ?_⟩
    simp
  | cons kind rest ih =>
    intro r P data hdata hsub hslots hbound
    subst hdata
    obtain ⟨fb, hfb, hlen⟩ : ∃ fb, getSlot v kind = some fb ∧
        fb.length = kind.size := by
      have hx := hslots kind (List.mem_cons_self kind rest)
      cases hgs : getSlot v kind with
      | none =>
        rw [hgs] at hx
        cases hx
      | some fb =>
        rw [hgs] at hx
        injection hx with hx
        exact ⟨fb, rfl, hx⟩
    have hk : kind ∈ namedKinds := hsub (List.mem_cons_self kind rest)
    have hP : P.length + 8 ≤ 2 ^ 64 := by
      have h1 : P.length ≤
          (P ++ (emitFields v (kind :: rest) P.length).1).length := by
        simp
      omega
    have hge := alignUp_kind_ge kind hP
    have hoff : P.length +
        (List.replicate (alignUp P.length kind.align - P.length) 0).length +
        ((getSlot v kind).getD []).length =
          alignUp P.length kind.align + kind.size := by
      rw [hfb, List.length_replicate]
      simp only [Option.getD_some]
      omega
    have hemit : emitFields v (kind :: rest) P.length =
        (List.replicate (alignUp P.length kind.align - P.length) 0 ++ fb ++
          (emitFields v rest (alignUp P.length kind.align + kind.size)).1,
         (emitFields v rest (alignUp P.length kind.align + kind.size)).2) := by
      conv_lhs => rw [emitFields]
      rw [hoff, hfb]
      rfl
    have hPpadlen : (P ++ List.replicate
        (alignUp P.length kind.align - P.length) 0).length =
          alignUp P.length kind.align := by
      simp only [List.length_append, List.length_replicate]
      omega
    have hPlen : (P ++ List.replicate
        (alignUp P.length kind.align - P.length) 0 ++ fb).length =
          alignUp P.length kind.align + kind.size := by
      simp only [List.length_append, List.length_replicate]
      omega
    have hdata2 : P ++ (emitFields v (kind :: rest) P.length).1 =
        (P ++ List.replicate (alignUp P.length kind.align - P.length) 0 ++ fb) ++
          (emitFields v rest (alignUp P.length kind.align + kind.size)).1 := by
      rw [hemit]
      simp [List.append_assoc]
    have hdata3 : P ++ (emitFields v (kind :: rest) P.length).1 =
        (P ++ List.replicate (alignUp P.length kind.align - P.length) 0) ++
          (fb ++ (emitFields v rest
            (alignUp P.length kind.align + kind.size)).1) := by
      rw [hemit]
      simp [List.append_assoc]
    have hdlen : (P ++ (emitFields v (kind :: rest) P.length).1).length =
        alignUp P.length kind.align + kind.size +
          (emitFields v rest (alignUp P.length kind.align + kind.size)).1.length := by
      rw [hdata2, List.length_append, hPlen]
    have hle : ¬ (alignUp P.length kind.align + kind.size >
        (P ++ (emitFields v (kind :: rest) P.length).1).length) := by
      rw [hdlen]
      omega
    have hslice : byteSlice (P ++ (emitFields v (kind :: rest) P.length).1)
        (alignUp P.length kind.align)
        (alignUp P.length kind.align + kind.size) = fb := by
      rw [hdata3]
      have hbs := byteSlice_take
        (P ++ List.replicate (alignUp P.length kind.align - P.length) 0)
        (fb ++ (emitFields v rest
          (alignUp P.length kind.align + kind.size)).1)
        (alignUp P.length kind.align + kind.size)
      rw [hPpadlen] at hbs
      rw [hbs]
      have h2 : alignUp P.length kind.align + kind.size -
          alignUp P.length kind.align = kind.size := by omega
      rw [h2, ← hlen, List.take_left]
    have hcore : iterNextCore kind P.length
        (P ++ (emitFields v (kind :: rest) P.length).1) =
        (.item kind fb, alignUp P.length kind.align + kind.size) := by
      unfold iterNextCore
      dsimp only
      rw [if_neg hle, if_neg (named_not_sentinel kind hk), hslice]
    have htake : fb.take kind.size = fb := by
      rw [← hlen]
      exact List.take_length fb
    have hps : parseStep r kind fb = .ok (setSlot r kind fb) := by
      rw [parseStep_ok_named hk (Nat.le_of_eq hlen.symm), htake]
    obtain ⟨r', hrun, hhdr, hslots'⟩ := ih (setSlot r kind fb)
      (P ++ List.replicate (alignUp P.length kind.align - P.length) 0 ++ fb)
      (P ++ (emitFields v (kind :: rest) P.length).1)
      (by rw [hPlen]; exact hdata2)
      (fun x hx => hsub (List.mem_cons_of_mem _ hx))
      (fun x hx => hslots x (List.mem_cons_of_mem _ hx))
      hbound
    refine ⟨r', ?_, hhdr.trans (header_setSlot _ _ _), ?_⟩
    · unfold runFields
      rw [hcore]
      dsimp only
      rw [hps]
      dsimp only
      rw [← hPlen]
      exact hrun
    · intro k
      have hsk := hslots' k
      by_cases h1 : k ∈ rest
      · rw [hsk, if_pos h1, if_pos (List.mem_cons_of_mem _ h1)]
      · by_cases h2 : k = kind
        · subst h2
          rw [hsk, if_neg h1, if_pos (List.mem_cons_self k rest),
            getSlot_setSlot_self hk, hfb]
        · rw [hsk, if_neg h1,
            if_neg (by
              rw [List.mem_cons]
              rintro (h | h)
              · exact h2 h
              · exact h1 h),
            getSlot_setSlot_ne h2]

theorem headerUnparse_length (h : Header) : (headerUnparse h).length = 8 := by
  simp [headerUnparse, u16le, u32le]

theorem headerUnparse_def (h : Header) :
    headerUnparse h =
      [h.version, 0, h.length % 256, h.length / 256 % 256,
       presentWord h.present % 256, presentWord h.present / 256 % 256,
       presentWord h.present / 2 ^ 16 % 256,
       presentWord h.present / 2 ^ 24 % 256] := by
  simp [headerUnparse, u16le, u32le]

theorem unparse_eq (v : Radiotap) :
    Radiotap.unparse v =
      (headerUnparse v.header ++ (emitFields v v.header.present 8).1,
       (emitFields v v.header.present 8).2) := by
  unfold Radiotap.unparse
  dsimp only
  rw [headerUnparse_length]

/-- The length bookkeeping of a well-formed value: its declared length is the
emission's final count, it is between 8 and 468, and the emitted bytes fill it
exactly. -/
theorem wf_length_facts {v : Radiotap} (h : wellFormed v) :
    8 ≤ v.header.length ∧ v.header.length ≤ 468 ∧
    (emitFields v v.header.present 8).2 = v.header.length ∧
    8 + (emitFields v v.header.present 8).1.length = v.header.length := by
  obtain ⟨hver, hsize, hsort, hsub, hslots, hlen⟩ := h
  have hnd := nodup_of_pairwise_bitlt hsort
  have h23 : namedKinds.length = 23 := rfl
  have hlen23 : v.header.present.length ≤ 23 := by
    have := (hnd.subperm hsub).length_le
    omega
  have hslots' : ∀ k ∈ v.header.present,
      (getSlot v k).map List.length = some k.size :=
    fun k hk => (hslots k (hsub hk)).1 hk
  obtain ⟨e1, e2, e3, e4⟩ := emit_spec v v.header.present 8 hsub hslots'
    (by omega)
  rw [hlen]
  exact ⟨e3, by omega, e1, e2⟩

/-- Decoding the header bytes written by unparse recovers the header of a
well-formed value. -/
theorem headerDecode_unparse {v : Radiotap} (h : wellFormed v) :
    headerDecode (headerUnparse v.header ++ (emitFields v v.header.present 8).1)
      = .ok v.header := by
  obtain ⟨hver, hsize, hsort, hsub, hslots, hlen⟩ := h
  obtain ⟨hL8, hL468, hemit2, hemit1⟩ := wf_length_facts
    ⟨hver, hsize, hsort, hsub, hslots, hlen⟩
  have hBlen : (headerUnparse v.header ++
      (emitFields v v.header.present 8).1).length = v.header.length := by
    rw [List.length_append, headerUnparse_length]
    omega
  have hwlt : presentWord v.header.present < 2 ^ 31 := presentWord_lt hsub
  have hg0 : (headerUnparse v.header ++
      (emitFields v v.header.present 8).1).getD 0 0 = v.header.version := by
    rw [getD_append_left (by rw [headerUnparse_length]; omega), headerUnparse_def]
    rfl
  have hr16 : readU16 (headerUnparse v.header ++
      (emitFields v v.header.present 8).1) 2 = v.header.length := by
    unfold readU16
    rw [getD_append_left (by rw [headerUnparse_length]; omega),
      getD_append_left (by rw [headerUnparse_length]; omega), headerUnparse_def]
    simp only [List.getD_cons_succ, List.getD_cons_zero]
    omega
  have hr32 : readU32 (headerUnparse v.header ++
      (emitFields v v.header.present 8).1) 4 = presentWord v.header.present := by
    unfold readU32
    rw [getD_append_left (by rw [headerUnparse_length]; omega),
      getD_append_left (by rw [headerUnparse_length]; omega),
      getD_append_left (by rw [headerUnparse_length]; omega),
      getD_append_left (by rw [headerUnparse_length]; omega), headerUnparse_def]
    simp only [List.getD_cons_succ, List.getD_cons_zero]
    have h232 : presentWord v.header.present < 2 ^ 32 := by
      have : (2 : Nat) ^ 31 < 2 ^ 32 := by norm_num
      omega
    omega
  have hwords : readWords (headerUnparse v.header ++
      (emitFields v v.header.present 8).1)
      (headerUnparse v.header ++ (emitFields v v.header.present 8).1).length 4 =
        .ok [presentWord v.header.present] := by
    obtain ⟨m, hm⟩ : ∃ m, (headerUnparse v.header ++
        (emitFields v v.header.present 8).1).length = m + 1 :=
      ⟨(headerUnparse v.header ++ (emitFields v v.header.present 8).1).length - 1,
        by omega⟩
    rw [hm]
    unfold readWords
    rw [if_pos (by omega : 4 + 4 ≤ (headerUnparse v.header ++
      (emitFields v v.header.present 8).1).length)]
    dsimp only
    rw [hr32, Nat.testBit_lt_two_pow hwlt]
    simp
  unfold headerDecode
  rw [if_pos (by omega : 4 ≤ (headerUnparse v.header ++
    (emitFields v v.header.present 8).1).length)]
  rw [if_pos (by rw [hg0, hver] : (headerUnparse v.header ++
    (emitFields v v.header.present 8).1).getD 0 0 = 0)]
  dsimp only
  rw [hr16, if_pos (by omega : v.header.length ≤ (headerUnparse v.header ++
    (emitFields v v.header.present 8).1).length)]
  rw [hwords]
  dsimp only
  have hpres : presentOfWords [presentWord v.header.present] =
      v.header.present := by
    show presentOfWord (presentWord v.header.present) ++ [] = v.header.present
    rw [List.append_nil]
    exact presentOfWord_presentWord hsort hsub
  rw [hpres]
  rcases v with ⟨hdr, _⟩
  rcases hdr with ⟨ver, len, pres, sz⟩
  simp only at hver hsize ⊢
  rw [hver, hsize]
  rfl

/-- Claim C1 counterexample: a value whose present list is sorted (empty) and
whose typed slots match it (all empty), but whose declared header length (9)
is not the canonical one; unparse writes 8 bytes declaring length 9, and parse
rejects them with `InvalidLength` instead of returning the value. -/
theorem c1_counterexample :
    ([] : List Kind).Pairwise (fun a b => a.bit < b.bit)
    ∧ (∀ k ∈ namedKinds, getSlot { Radiotap.init with
        header := { version := 0, length := 9, present := [], size := 8 } } k
          = none)
    ∧ Radiotap.parse (Radiotap.unparse { Radiotap.init with
        header := { version := 0, length := 9, present := [], size := 8 } }).1 =
      .err .InvalidLength := by
  decide

/-- Claim C1 (amended): for every well-formed Radiotap value (strictly
bit-ascending present list of named kinds, typed slots holding a value of the
kind's encoded size exactly for the present kinds, and the canonical header:
version 0, size 8, length equal to the builder's fold), parsing the bytes
that unparse produced returns the value itself with an empty remainder, and
the byte count unparse reports equals the parsed result's header length. -/
theorem c1_roundtrip (v : Radiotap) (h : wellFormed v) :
    Radiotap.parse (Radiotap.unparse v).1 = .ok (v, [])
    ∧ (Radiotap.unparse v).2 = v.header.length := by
  obtain ⟨hver, hsize, hsort, hsub, hslots, hlen⟩ := h
  obtain ⟨hL8, hL468, hemit2, hemit1⟩ := wf_length_facts
    ⟨hver, hsize, hsort, hsub, hslots, hlen⟩
  rw [unparse_eq]
  have hBlen : (headerUnparse v.header ++
      (emitFields v v.header.present 8).1).length = v.header.length := by
    rw [List.length_append, headerUnparse_length]
    omega
  refine ⟨?_, hemit2⟩
  unfold Radiotap.parse
  rw [headerDecode_unparse ⟨hver, hsize, hsort, hsub, hslots, hlen⟩]
  dsimp only
  have htake : (headerUnparse v.header ++
      (emitFields v v.header.present 8).1).take v.header.length =
        headerUnparse v.header ++ (emitFields v v.header.present 8).1 := by
    rw [← hBlen]
    exact List.take_length _
  have hdrop : (headerUnparse v.header ++
      (emitFields v v.header.present 8).1).drop v.header.length = [] := by
    rw [← hBlen]
    exact List.drop_length _
  rw [htake, hdrop, hsize]
  have hslots1 : ∀ k ∈ v.header.present,
      (getSlot v k).map List.length = some k.size :=
    fun k hk => (hslots k (hsub hk)).1 hk
  obtain ⟨r', hrun, hhdr, hslots'⟩ := runFields_roundtrip v v.header.present
    { Radiotap.init with header := v.header } (headerUnparse v.header)
    (headerUnparse v.header ++ (emitFields v v.header.present 8).1)
    rfl hsub hslots1 (by rw [hBlen]; omega)
  have hrun8 : runFields { Radiotap.init with header := v.header }
      v.header.present 8
      (headerUnparse v.header ++ (emitFields v v.header.present 8).1) =
        .ok r' := hrun
  rw [hrun8]
  have hext : ∀ k, getSlot r' k = getSlot v k := by
    intro k
    rw [hslots' k]
    by_cases hm : k ∈ v.header.present
    · rw [if_pos hm]
    · rw [if_neg hm]
      have h0 : getSlot { Radiotap.init with header := v.header } k = none := by
        cases k <;> rfl
      rw [h0]
      by_cases hkn : k ∈ namedKinds
      · exact ((hslots k hkn).2 hm).symm
      · cases k <;> first | (exact absurd (by decide) hkn) | rfl
  have hrv : r' = v := radiotap_ext hhdr hext
  rw [hrv]

/-- Claim C1 witness: a concrete well-formed value with tsft, rate and channel
set round-trips through unparse and parse. -/
theorem c1_roundtrip_witness :
    wellFormed { Radiotap.init with
      header := { version := 0, length := 22,
                  present := [Kind.TSFT, Kind.Rate, Kind.Channel], size := 8 },
      tsft := some [1, 2, 3, 4, 5, 6, 7, 8], rate := some [9],
      channel := some [10, 11, 12, 13] }
    ∧ (Radiotap.parse (Radiotap.unparse { Radiotap.init with
        header := { version := 0, length := 22,
                    present := [Kind.TSFT, Kind.Rate, Kind.Channel], size := 8 },
        tsft := some [1, 2, 3, 4, 5, 6, 7, 8], rate := some [9],
        channel := some [10, 11, 12, 13] }).1 =
          .ok ({ Radiotap.init with
            header := { version := 0, length := 22,
                        present := [Kind.TSFT, Kind.Rate, Kind.Channel],
                        size := 8 },
            tsft := some [1, 2, 3, 4, 5, 6, 7, 8], rate := some [9],
            channel := some [10, 11, 12, 13] }, [])
      ∧ (Radiotap.unparse { Radiotap.init with
          header := { version := 0, length := 22,
                      present := [Kind.TSFT, Kind.Rate, Kind.Channel],
                      size := 8 },
          tsft := some [1, 2, 3, 4, 5, 6, 7, 8], rate := some [9],
          channel := some [10, 11, 12, 13] }).2 =
        ({ Radiotap.init with
          header := { version := 0, length := 22,
                      present := [Kind.TSFT, Kind.Rate, Kind.Channel],
                      size := 8 },
          tsft := some [1, 2, 3, 4, 5, 6, 7, 8], rate := some [9],
          channel := some [10, 11, 12, 13] } : Radiotap).header.length) :=
  ⟨by decide, c1_roundtrip _ (by decide)⟩
